import Mathlib

/-!
Verification of the amocrm-api repository's batched mutation reconciler
(`amocrm_api/client.py`) and custom-field codec/binding subsystem
(`amocrm_api/custom_fields.py`, `amocrm_api/utils.py`).

The Python source is shallowly embedded: entities are records, in-place
mutation becomes explicit state passing, Python exceptions become `Except`
errors carrying the state at raise time, and the logger is modelled as a
list of warning messages accumulated in the state.
-/

set_option maxRecDepth 4000

deriving instance DecidableEq for Except

namespace AmocrmApi

/-- A datetime, modelled as whole seconds plus a microsecond part
(only the ordering and the `replace(microsecond=0)` truncation matter). -/
structure Timestamp where
  sec : Nat
  micro : Nat
deriving DecidableEq, Repr

/-- Python `dt.replace(microsecond=0)`. -/
def Timestamp.truncate (t : Timestamp) : Timestamp := ⟨t.sec, 0⟩

/-- Python `<=` on datetimes: lexicographic on (seconds, microseconds). -/
def Timestamp.ble (a b : Timestamp) : Bool :=
  a.sec < b.sec || (a.sec == b.sec && a.micro ≤ b.micro)

/-- A model entity as the reconciler sees it: `obj.id`, `obj.updated_at`
and the `obj.meta` dict used for per-object error state. -/
structure Entity where
  id : Option Int := none
  updated_at : Option Timestamp := none
  meta : List (String × String) := []
deriving DecidableEq, Repr

/-- Python dict assignment `meta[k] = v` on the entity meta dict: replace
the entry when the key is present, append it otherwise. -/
def metaSet : List (String × String) → String → String → List (String × String)
  | [], k, v => [(k, v)]
  | p :: rest, k, v => if p.1 == k then (k, v) :: rest else p :: metaSet rest k v

/-- Python `meta.pop(k, None)`: drop the key's entries. -/
def metaPop : List (String × String) → String → List (String × String)
  | [], _ => []
  | p :: rest, k => if p.1 == k then metaPop rest k else p :: metaPop rest k

/-- Python `meta.get(k)`. -/
def metaGet : List (String × String) → String → Option String
  | [], _ => none
  | p :: rest, k => if p.1 == k then some p.2 else metaGet rest k

/-- One element of the response `_embedded.items` list: its `id`, and its
`updated_at` when that key is present. -/
structure RespItem where
  id : Int
  updated_at : Option Timestamp := none
deriving DecidableEq, Repr

/-- Shape of the `add` entry of the response error map after the top-level
PHP-array fixups: either a dict keyed by request index or a bare list. -/
inductive AddErrors where
  | dict (entries : List (Nat × String))
  | list (msgs : List String)
deriving DecidableEq, Repr

/-- The response error map after `setdefault('add'/'update'/'delete', {})`:
an absent action key is the empty mapping. `update`/`delete` errors are
keyed by entity id. -/
structure RawErrors where
  add : AddErrors := .dict []
  update : List (Int × String) := []
  delete : List (Int × String) := []
deriving DecidableEq, Repr

/-- The synthesized message
`'Maybe not added (possible errors %s)' % set(errors['add'])`:
a function of the raw list (duplicates collapsed, as by Python `set`). -/
def maybeNotAddedMsg (msgs : List String) : String :=
  "Maybe not added (possible errors " ++ toString msgs.eraseDups ++ ")"

/-- Normalization of the `add` errors (client.py lines 224-231): the list
form of matching length becomes an index-keyed dict; a mismatched-length
list yields one synthesized error per submitted add entity. -/
def normalizeAddErrors : AddErrors → Nat → List (Nat × String)
  | .dict es, _ => es
  | .list msgs, addLen =>
    if msgs.length = addLen then
      msgs.enum
    else
      (List.range addLen).map (fun i => (i, maybeNotAddedMsg msgs))

/-- The mutable state `_post_objects` operates on: the add list, the update
and delete maps (insertion-ordered dicts), plus the warnings logged so far. -/
structure PostState where
  add : List Entity
  update : List (Int × Entity)
  delete : List (Int × Entity)
  warnings : List String
deriving DecidableEq, Repr

/-- Python exceptions that `_post_objects` / `post_objects` can raise. -/
inductive PostExn where
  | clientError (msg : String)
  | assertionError (msg : String)
  | keyError
deriving DecidableEq, Repr

def initPostState (add : List Entity) (updateMap deleteMap : List (Int × Entity)) :
    PostState :=
  ⟨add, updateMap, deleteMap, []⟩

/-- In-place update of the `i`-th element of a list (Python `l[i] = f(l[i])`). -/
def modifyNth (l : List Entity) (i : Nat) (f : Entity → Entity) : List Entity :=
  match l[i]? with
  | some x => l.set i (f x)
  | none => l

/-- Lookup in an index-keyed error dict (`errors['add'].get(str(i))`). -/
def lookupNat : List (Nat × String) → Nat → Option String
  | [], _ => none
  | p :: rest, i => if p.1 == i then some p.2 else lookupNat rest i

/-- Lookup in an id-keyed error dict (`errors[action].get(str(id))`). -/
def lookupInt : List (Int × String) → Int → Option String
  | [], _ => none
  | p :: rest, i => if p.1 == i then some p.2 else lookupInt rest i

/-- The item attribution loop of `_post_objects` (client.py lines 242-259):
while not-yet-errored add indices remain, each item must lack `updated_at`
(else AssertionError) and hands its new id to the next such add entity;
afterwards, items carrying `updated_at` are matched against the update map
(KeyError when absent), the server value overwrites the local `updated_at`,
and a mismatch against the microsecond-truncated local value logs a warning. -/
def attributeItems :
    List RespItem → List Nat → PostState → Except (PostExn × PostState) PostState
  | [], _, s => .ok s
  | item :: rest, i :: restIdxs, s =>
    match item.updated_at with
    | some _ => .error (.assertionError "updated_at in added item", s)
    | none =>
      attributeItems rest restIdxs
        { s with add := modifyNth s.add i (fun e => { e with id := some item.id }) }
  | item :: rest, [], s =>
    match item.updated_at with
    | none => attributeItems rest [] s
    | some ts =>
      match s.update.find? (fun p => p.1 == item.id) with
      | none => .error (.keyError, s)
      | some (_, u) =>
        let warned : Bool :=
          match u.updated_at with
          | some t0 => !(t0.truncate == ts)
          | none => false
        attributeItems rest []
          { s with
            update := s.update.map (fun p =>
              if p.1 == item.id then (p.1, { p.2 with updated_at := some ts }) else p),
            warnings := s.warnings ++ (if warned then ["updated_at mismatch"] else []) }

/-- One step of the per-object error loop (client.py lines 264-271): a truthy
error message is stored under `meta['error']`, otherwise the key is popped. -/
def applyMetaObj (err : Option String) (obj : Entity) : Entity :=
  match err with
  | some msg =>
    if msg = "" then { obj with meta := metaPop obj.meta "error" }
    else { obj with meta := metaSet obj.meta "error" msg }
  | none => { obj with meta := metaPop obj.meta "error" }

/-- The error loop over `dict(enumerate(add))`, with `i` the index of the
first element. -/
def applyMetaAdd : Nat → List Entity → List (Nat × String) → List Entity
  | _, [], _ => []
  | i, obj :: rest, errs => applyMetaObj (lookupNat errs i) obj :: applyMetaAdd (i + 1) rest errs

/-- The error loop over the update / delete maps. -/
def applyMetaMap (objs : List (Int × Entity)) (errs : List (Int × String)) :
    List (Int × Entity) :=
  objs.map (fun p => (p.1, applyMetaObj (lookupInt errs p.1) p.2))

/-- The normalized `resp.errors` returned by `_post_objects`. -/
structure NormErrors where
  add : List (Nat × String)
  update : List (Int × String)
  delete : List (Int × String)
deriving DecidableEq, Repr

/-- Embeds `AmocrmClient._post_objects` (client.py lines 200-272), from response
parsing onward: normalize the error map, check response completeness
(raising ClientError before touching any entity), attribute returned items,
then set or clear each object's `meta['error']`. Errors carry the entity
state visible at raise time. -/
def post_objects_reconcile (add : List Entity) (updateMap deleteMap : List (Int × Entity))
    (items : List RespItem) (raw : RawErrors) :
    Except (PostExn × PostState) (NormErrors × PostState) :=
  let addErrs := normalizeAddErrors raw.add add.length
  let s0 := initPostState add updateMap deleteMap
  if items.length + (addErrs.length + raw.update.length + raw.delete.length)
      ≠ add.length + updateMap.length + deleteMap.length then
    .error (.clientError "Response items count not matched", s0)
  else
    let addedIdxs := (List.range add.length).filter (fun i => (lookupNat addErrs i).isNone)
    match attributeItems items addedIdxs s0 with
    | .error e => .error e
    | .ok s1 =>
      .ok (⟨addErrs, raw.update, raw.delete⟩,
        { s1 with
          add := applyMetaAdd 0 s1.add addErrs,
          update := applyMetaMap s1.update raw.update,
          delete := applyMetaMap s1.delete raw.delete })

/-- The per-class grouping state built by `post_objects` (client.py lines
287-302): for each entity class name, the add list and the insertion-ordered
update map, plus the warnings logged so far. -/
structure GroupState where
  groups : List (String × (List Entity × List (Int × Entity)))
  warnings : List String
deriving DecidableEq, Repr

/-- Reads the `defaultdict(lambda: ([], {}))` grouping map. -/
def getGroup : List (String × (List Entity × List (Int × Entity))) → String →
    List Entity × List (Int × Entity)
  | [], _ => ([], [])
  | p :: rest, cls => if p.1 == cls then p.2 else getGroup rest cls

/-- Store back a class's (add, update) pair, inserting on first use. -/
def setGroup : List (String × (List Entity × List (Int × Entity))) → String →
    (List Entity × List (Int × Entity)) → List (String × (List Entity × List (Int × Entity)))
  | [], cls, v => [(cls, v)]
  | p :: rest, cls, v => if p.1 == cls then (cls, v) :: rest else p :: setGroup rest cls v

/-- The updated_at refresh block of `post_objects` (client.py lines 291-297):
set the entity's `updated_at` to the new timestamp when it was unset or not
newer, otherwise leave it alone and flag a warning. -/
def refreshUpdatedAt (ua : Timestamp) (obj : Entity) : Entity × Bool :=
  match obj.updated_at with
  | none => ({ obj with updated_at := some ua }, false)
  | some t0 =>
    if t0.ble ua then ({ obj with updated_at := some ua }, false)
    else (obj, true)

/-- One iteration of the `for obj in add_or_update` loop of `post_objects`
(client.py lines 288-302): entities with an id go through the updated_at
refresh and then the `assert int(obj.id) not in update` duplicate check
before entering the class's update map; entities without an id are appended
to the class's add list. -/
def groupStep (ua : Option Timestamp) (gs : GroupState) (cls : String) (obj : Entity) :
    Except (PostExn × GroupState) GroupState :=
  let g := getGroup gs.groups cls
  match obj.id with
  | some n =>
    let r :=
      match ua with
      | some t => refreshUpdatedAt t obj
      | none => (obj, false)
    let gs2 : GroupState := { gs with
      warnings := gs.warnings ++ (if r.2 then ["Skipping updated_at set"] else []) }
    if g.2.any (fun p => p.1 == n) then
      .error (.assertionError "Duplicated id", gs2)
    else
      .ok { gs2 with groups := setGroup gs2.groups cls (g.1, g.2 ++ [(n, r.1)]) }
  | none => .ok { gs with groups := setGroup gs.groups cls (g.1 ++ [obj], g.2) }

/-- Fold of `groupStep` over the `add_or_update` sequence. -/
def groupFold (ua : Option Timestamp) :
    List (String × Entity) → GroupState → Except (PostExn × GroupState) GroupState
  | [], gs => .ok gs
  | (c, o) :: rest, gs =>
    match groupStep ua gs c o with
    | .error e => .error e
    | .ok gs2 => groupFold ua rest gs2

/-- The grouping phase of `post_objects`: the passed timestamp is truncated
(`updated_at.replace(microsecond=0)`) once up front, `none` models the
`updated_at=False` option. -/
def group_add_or_update (uaOpt : Option Timestamp) (objs : List (String × Entity)) :
    Except (PostExn × GroupState) GroupState :=
  groupFold (uaOpt.map Timestamp.truncate) objs ⟨[], []⟩

/-- The per-class submission loop of `post_objects` (delete-free call path):
`f` models the transport, giving each class's response items and error map. -/
def sendGroups (f : String → List RespItem × RawErrors) :
    List (String × (List Entity × List (Int × Entity))) →
    Except PostExn (List (NormErrors × PostState))
  | [] => .ok []
  | (c, g) :: rest =>
    match post_objects_reconcile g.1 g.2 [] (f c).1 (f c).2 with
    | .error e => .error e.1
    | .ok r =>
      match sendGroups f rest with
      | .error e => .error e
      | .ok rs => .ok (r :: rs)

/-- Embeds `AmocrmClient.post_objects` on the `delete=[]`, `raise_on_errors=False`
call path: group the `add_or_update` sequence by class (raising before any
request when an assertion fires), then submit one request per class. -/
def post_objects (f : String → List RespItem × RawErrors) (uaOpt : Option Timestamp)
    (objs : List (String × Entity)) : Except PostExn (List (NormErrors × PostState)) :=
  match group_add_or_update uaOpt objs with
  | .error e => .error e.1
  | .ok gs => sendGroups f gs.groups

/-! ## Custom field codecs (`amocrm_api/custom_fields.py`) -/

/-- One element of a single-value wire envelope: `{'value': X}`. -/
structure WireItem (α : Type) where
  value : α
deriving DecidableEq, Repr

/-- Python exceptions raised by the field codecs. -/
inductive FieldErr where
  | assertionError (msg : String)
  | validationError (msg : String)
  | keyError
deriving DecidableEq, Repr

/-- Embeds `_SingleMixin._deserialize` (custom_fields.py lines 182-184): assert the
wire value has exactly one element, then take its `value`. -/
def singleDeserialize {α : Type} (w : List (WireItem α)) : Except FieldErr α :=
  match w with
  | [x] => .ok x.value
  | _ => .error (.assertionError "Unexpected format")

/-- Embeds `_SingleMixin._serialize` (custom_fields.py lines 186-188): `None` stays
`None`, anything else is wrapped as `[{'value': X}]`. -/
def singleSerialize {α : Type} (v : Option α) : Option (List (WireItem α)) :=
  v.map (fun x => [⟨x⟩])

/-- The `SelectField` deserialization: the single-value envelope followed by the
`validate.OneOf(enums)` check against the label set. -/
def selectDeserialize (labels : List String) (w : List (WireItem String)) :
    Except FieldErr String :=
  match singleDeserialize w with
  | .error e => .error e
  | .ok v => if labels.contains v then .ok v else .error (.validationError "Not a valid choice")

/-- Embeds `SelectField._serialize` (custom_fields.py lines 228-230): validate the
value against the label set, then the single-value envelope. -/
def selectSerialize (labels : List String) (v : String) :
    Except FieldErr (List (WireItem String)) :=
  if labels.contains v then .ok [⟨v⟩] else .error (.validationError "Not a valid choice")

/-- Embeds `MultiSelectField._deserialize` (custom_fields.py lines 236-240): collect
the `value` of each element, each validated against the label set. -/
def multiselectDeserialize (labels : List String) (w : List (WireItem String)) :
    Except FieldErr (List String) :=
  let values := w.map (fun x => x.value)
  if values.all labels.contains then .ok values
  else .error (.validationError "Not a valid choice")

/-- Embeds `MultiSelectField._serialize` (custom_fields.py lines 242-250). -/
def multiselectSerialize (labels : List String) (v : Option (List String)) :
    Except FieldErr (Option (List (WireItem String))) :=
  match v with
  | none => .ok none
  | some vs =>
    if vs.all labels.contains then .ok (some (vs.map (fun x => ⟨x⟩)))
    else .error (.validationError "Unexpected enums")

/-- One element of the multitext wire envelope: `{'enum': E, 'value': X}`. -/
structure MTItem where
  enum : String
  value : String
deriving DecidableEq, Repr

/-- Embeds `MultiTextField._deserialize` (custom_fields.py lines 264-268): map each
element's `enum` key through the metadata `enums` dict (enum id → label),
KeyError when the key is not an enum id. -/
def multitextDeserialize (enums : List (String × String)) :
    List MTItem → Except FieldErr (List (String × String))
  | [] => .ok []
  | it :: rest =>
    match enums.find? (fun p => p.1 == it.enum) with
    | none => .error .keyError
    | some (_, label) => (multitextDeserialize enums rest).map (fun l => (label, it.value) :: l)

/-- Embeds `MultiTextField._serialize` (custom_fields.py lines 270-278): validate the
mapping's keys against the label set, then emit each key itself — the label,
not its enum id — under the `enum` wire key. -/
def multitextSerialize (labels : List String) (v : Option (List (String × String))) :
    Except FieldErr (Option (List MTItem)) :=
  match v with
  | none => .ok none
  | some kvs =>
    if kvs.all (fun p => labels.contains p.1) then
      .ok (some (kvs.map (fun p => ⟨p.1, p.2⟩)))
    else .error (.validationError "Unexpected enums")

/-! ## Custom field binding (`_CustomFieldMixin`, `utils.get_one`) -/

/-- One account metadata record for a custom field. -/
structure FieldMeta where
  id : Int
  code : Option String := none
  name : String
  field_type : Nat
deriving DecidableEq, Repr

/-- The binding request carried by a statically declared custom field:
`self.metadata.get('id'/'code'/'name')` and the class's `field_type`. -/
structure Descriptor where
  id : Option Int := none
  code : Option String := none
  name : Option String := none
  field_type : Nat
deriving DecidableEq, Repr

/-- Binding failures (`RuntimeError`s in the source, distinguished here by
what the message reports). -/
inductive BindError where
  | noBindAttr
  | bindFailed (attr : String) (matched : Nat)
  | typeMismatch (expected got : Nat)
deriving DecidableEq, Repr

/-- Embeds `utils.get_one`: filter, and demand exactly one match; the IndexError
carries the number of matched items. -/
def get_one (items : List FieldMeta) (pred : FieldMeta → Bool) : Except Nat FieldMeta :=
  match items.filter pred with
  | [m] => .ok m
  | l => .error l.length

/-- Embeds `_CustomFieldMixin._get_from_custom_fields_meta` (custom_fields.py lines
158-166): try the binding attributes in the order id, code, name; the first
one present selects the match predicate, and a `get_one` failure becomes the
bind-failed RuntimeError. -/
def get_from_custom_fields_meta (d : Descriptor) (data : List FieldMeta) :
    Except BindError FieldMeta :=
  match d.id with
  | some v =>
    match get_one data (fun m => m.id == v) with
    | .ok m => .ok m
    | .error k => .error (.bindFailed "id" k)
  | none =>
    match d.code with
    | some v =>
      match get_one data (fun m => m.code == some v) with
      | .ok m => .ok m
      | .error k => .error (.bindFailed "code" k)
    | none =>
      match d.name with
      | some v =>
        match get_one data (fun m => m.name == v) with
        | .ok m => .ok m
        | .error k => .error (.bindFailed "name" k)
      | none => .error .noBindAttr

/-- Embeds `_CustomFieldMixin._bind_from_custom_fields_meta` (custom_fields.py lines
168-174): resolve the metadata record, then check the field type, returning
the bound field id. -/
def bind_from_custom_fields_meta (d : Descriptor) (data : List FieldMeta) :
    Except BindError Int :=
  match get_from_custom_fields_meta d data with
  | .error e => .error e
  | .ok m =>
    if d.field_type == m.field_type then .ok m.id
    else .error (.typeMismatch d.field_type m.field_type)

/-! ## Helper lemmas -/

theorem metaGet_metaSet (m : List (String × String)) (k v : String) :
    metaGet (metaSet m k v) k = some v := by
  induction m with
  | nil => simp [metaSet, metaGet]
  | cons p rest ih =>
    by_cases hp : p.1 == k
    · simp [metaSet, metaGet, hp]
    · simp [metaSet, metaGet, hp, ih]

theorem metaGet_metaPop (m : List (String × String)) (k : String) :
    metaGet (metaPop m k) k = none := by
  induction m with
  | nil => simp [metaPop, metaGet]
  | cons p rest ih =>
    by_cases hp : p.1 == k
    · simp [metaPop, hp, ih]
    · simp [metaPop, metaGet, hp, ih]

/-- The step `applyMetaObj` always leaves the `error` meta key holding exactly the
truthy part of the error it was given. -/
theorem metaGet_applyMetaObj (err : Option String) (obj : Entity) :
    metaGet (applyMetaObj err obj).meta "error" =
      (match err with
       | some msg => if msg = "" then none else some msg
       | none => none) := by
  unfold applyMetaObj
  match err with
  | none => exact metaGet_metaPop _ _
  | some msg =>
    by_cases h : msg = ""
    · simp only [h, if_pos rfl]
      exact metaGet_metaPop _ _
    · simp only [if_neg h]
      exact metaGet_metaSet _ _ _

/-! ## C1 -/

/-- C1: when the number of returned items plus the number of errors across
the add, update and delete actions differs from the number of submitted
add, update and delete entities, the reconciler raises ClientError and the
state it leaves behind is exactly the initial one: no entity had its id,
updated_at or meta touched. -/
theorem c1_count_mismatch_atomic (add : List Entity)
    (updateMap deleteMap : List (Int × Entity)) (items : List RespItem) (raw : RawErrors)
    (h : items.length + ((normalizeAddErrors raw.add add.length).length +
        raw.update.length + raw.delete.length)
      ≠ add.length + updateMap.length + deleteMap.length) :
    post_objects_reconcile add updateMap deleteMap items raw =
      .error (.clientError "Response items count not matched",
        initPostState add updateMap deleteMap) := by
  unfold post_objects_reconcile
  simp only [if_pos h]

/-- Witness for C1: one submitted add entity, an empty response. -/
theorem c1_count_mismatch_atomic_witness :
    (0 + ((normalizeAddErrors (AddErrors.dict []) 1).length + 0 + 0) ≠ 1 + 0 + 0) ∧
    post_objects_reconcile [{}] [] [] [] {} =
      .error (.clientError "Response items count not matched", initPostState [{}] [] []) :=
  ⟨by decide, c1_count_mismatch_atomic [{}] [] [] [] {} (by decide)⟩

/-! ## C7 -/

/-- C7 counterexample: decoding the empty wire value with a single-value
codec (text, numeric, checkbox, date, url, textarea, street-address,
birthday all share `_SingleMixin._deserialize`) does not return None — it
raises the `assert len(value) == 1` AssertionError. -/
theorem c7_counterexample :
    singleDeserialize ([] : List (WireItem String)) =
      .error (.assertionError "Unexpected format") := rfl

/-- C7 amended: an empty wire value decodes to an empty container for the
multi-value codecs (multiselect, multitext) and never raises there, but the
single-value codecs (including the enum-constrained select) assert exactly
one element, so the empty wire value raises AssertionError instead of
returning None. -/
theorem c7_empty_decode :
    (∀ labels : List String, multiselectDeserialize labels [] = .ok []) ∧
    (∀ enums : List (String × String), multitextDeserialize enums [] = .ok []) ∧
    (∀ α : Type, singleDeserialize ([] : List (WireItem α)) =
      .error (.assertionError "Unexpected format")) ∧
    (∀ labels : List String, selectDeserialize labels [] =
      .error (.assertionError "Unexpected format")) := by
  refine ⟨fun labels => ?_, fun enums => rfl, fun α => rfl, fun labels => rfl⟩
  simp [multiselectDeserialize]

/-! ## C5 -/

/-- C5 counterexample: for the multitext codec with enum metadata
`{143: WORK}`, encoding the valid mapping `{WORK: x}` emits the label
`WORK` itself under the `enum` wire key, and decoding that wire value
fails with KeyError (the decoder maps enum ids, not labels), so
`decode(encode(v)) ≠ v`. -/
theorem c5_counterexample :
    multitextSerialize ["WORK"] (some [("WORK", "x")]) = .ok (some [⟨"WORK", "x"⟩]) ∧
    multitextDeserialize [("143", "WORK")] [⟨"WORK", "x"⟩] = .error .keyError ∧
    multitextDeserialize [("143", "WORK")] [⟨"WORK", "x"⟩] ≠ .ok [("WORK", "x")] := by
  refine ⟨by decide, by decide, by decide⟩

/-- C5 amended: the round-trip law `decode(encode(v)) = v` holds for the
single-value envelope, for the enum-constrained select and for multiselect,
on every valid value of their domains; the multitext codec does not
reverse-map labels to enum ids — encode emits each mapping key (a label)
directly under the `enum` wire key, and decode fails with KeyError whenever
some emitted key is not an enum id. -/
theorem c5_roundtrip :
    (∀ (α : Type) (v : α),
      singleSerialize (some v) = some [⟨v⟩] ∧
      singleDeserialize [(⟨v⟩ : WireItem α)] = .ok v) ∧
    (∀ (labels : List String) (v : String), labels.contains v = true →
      selectSerialize labels v = .ok [⟨v⟩] ∧
      selectDeserialize labels [⟨v⟩] = .ok v) ∧
    (∀ (labels : List String) (vs : List String), vs.all labels.contains = true →
      multiselectSerialize labels (some vs) = .ok (some (vs.map (fun x => ⟨x⟩))) ∧
      multiselectDeserialize labels (vs.map (fun x => ⟨x⟩)) = .ok vs) ∧
    (∀ (enums : List (String × String)) (kvs : List (String × String)),
      kvs.all (fun p => (enums.map (fun q => q.2)).contains p.1) = true →
      multitextSerialize (enums.map (fun q => q.2)) (some kvs) =
        .ok (some (kvs.map (fun p => ⟨p.1, p.2⟩)))) ∧
    (∀ (enums : List (String × String)) (kvs : List (String × String))
      (p : String × String), p ∈ kvs → enums.find? (fun q => q.1 == p.1) = none →
      multitextDeserialize enums (kvs.map (fun r => ⟨r.1, r.2⟩)) = .error .keyError) := by
  refine ⟨fun α v => ⟨rfl, rfl⟩, fun labels v h => ?_, fun labels vs h => ?_,
    fun enums kvs h => ?_, fun enums kvs p hp hfind => ?_⟩
  · constructor
    · simp only [selectSerialize, h]
      rfl
    · simp only [selectDeserialize, singleDeserialize, h]
      rfl
  · constructor
    · simp only [multiselectSerialize, h]
      rfl
    · have hmap : (vs.map (fun x => (⟨x⟩ : WireItem String))).map (fun x => x.value) = vs := by
        rw [List.map_map]
        exact List.map_id' vs
      simp only [multiselectDeserialize, hmap, h]
      rfl
  · simp only [multitextSerialize, h]
    rfl
  · induction kvs with
    | nil => simp at hp
    | cons q rest ih =>
      cases hp with
      | head => simp only [List.map_cons, multitextDeserialize, hfind]
      | tail _ htail =>
        simp only [List.map_cons, multitextDeserialize]
        cases hfq : enums.find? (fun r => r.1 == q.1) with
        | none => rfl
        | some w =>
          obtain ⟨a, b⟩ := w
          rw [ih htail]
          rfl

/-- Witness for C5 amended: each conditional conjunct applied at a concrete
valid input. -/
theorem c5_roundtrip_witness :
    (selectSerialize ["red", "yellow"] "yellow" = .ok [⟨"yellow"⟩] ∧
      selectDeserialize ["red", "yellow"] [⟨"yellow"⟩] = .ok "yellow") ∧
    (multiselectSerialize ["red", "yellow"] (some ["yellow"]) = .ok (some [⟨"yellow"⟩]) ∧
      multiselectDeserialize ["red", "yellow"] [⟨"yellow"⟩] = .ok ["yellow"]) ∧
    multitextSerialize ([("143", "WORK")].map (fun q => q.2)) (some [("WORK", "x")]) =
      .ok (some [⟨"WORK", "x"⟩]) ∧
    multitextDeserialize [("143", "WORK")] ([("WORK", "x")].map (fun r => ⟨r.1, r.2⟩)) =
      .error .keyError := by
  refine ⟨c5_roundtrip.2.1 _ _ (by decide), ?_, c5_roundtrip.2.2.2.1 _ _ (by decide),
    c5_roundtrip.2.2.2.2 [("143", "WORK")] [("WORK", "x")] ("WORK", "x")
      (by decide) (by decide)⟩
  have h := c5_roundtrip.2.2.1 ["red", "yellow"] ["yellow"] (by decide)
  exact ⟨h.1, h.2⟩

/-! ## C6 -/

/-- A descriptor with no id and no code binds by name: the resolution is
`get_one` over the name predicate, failures tagged as name bind failures. -/
theorem gfm_by_name (d : Descriptor) (data : List FieldMeta) (n : String)
    (hid : d.id = none) (hcode : d.code = none) (hname : d.name = some n) :
    get_from_custom_fields_meta d data =
      match get_one data (fun m => m.name == n) with
      | .ok m => .ok m
      | .error k => .error (.bindFailed "name" k) := by
  unfold get_from_custom_fields_meta
  rw [hid, hcode, hname]

/-- C6: binding by name against metadata holding two or more records with
that name fails with the ambiguous bind error (the match count is reported)
even when only one of them has the descriptor's field type — the ambiguity
check precedes the type check; when exactly one record matches the name but
its field type differs, the distinct type-mismatch error is raised. -/
theorem c6_name_binding (d : Descriptor) (data : List FieldMeta) (n : String)
    (hid : d.id = none) (hcode : d.code = none) (hname : d.name = some n) :
    (2 ≤ (data.filter (fun m => m.name == n)).length →
      bind_from_custom_fields_meta d data =
        .error (.bindFailed "name" (data.filter (fun m => m.name == n)).length)) ∧
    (∀ m : FieldMeta, data.filter (fun m2 => m2.name == n) = [m] →
      m.field_type ≠ d.field_type →
      bind_from_custom_fields_meta d data =
        .error (.typeMismatch d.field_type m.field_type)) := by
  constructor
  · intro h2
    unfold bind_from_custom_fields_meta
    rw [gfm_by_name d data n hid hcode hname]
    unfold get_one
    cases hf : data.filter (fun m => m.name == n) with
    | nil => simp [hf] at h2
    | cons a tail =>
      cases tail with
      | nil => simp [hf] at h2
      | cons b l => rfl
  · intro m hf hty
    unfold bind_from_custom_fields_meta
    rw [gfm_by_name d data n hid hcode hname]
    unfold get_one
    rw [hf]
    have hb : (d.field_type == m.field_type) = false := by
      rw [beq_eq_false_iff_ne]
      exact fun h => hty h.symm
    simp only [hb, Bool.false_eq_true, if_false]

/-- Witness for C6: the spec's concrete scenario — descriptor
`{name: Position, field_type: TEXT}` against two same-named records yields
the ambiguous error; against one same-named NUMERIC record it yields the
type-mismatch error. -/
theorem c6_name_binding_witness :
    bind_from_custom_fields_meta ⟨none, none, some "Position", 1⟩
      [⟨1, none, "Position", 1⟩, ⟨2, none, "Position", 2⟩] =
      .error (.bindFailed "name" 2) ∧
    bind_from_custom_fields_meta ⟨none, none, some "Position", 1⟩
      [⟨2, none, "Position", 2⟩] = .error (.typeMismatch 1 2) := by
  constructor
  · have h := (c6_name_binding ⟨none, none, some "Position", 1⟩
      [⟨1, none, "Position", 1⟩, ⟨2, none, "Position", 2⟩] "Position" rfl rfl rfl).1
      (by decide)
    rw [h]
    decide
  · exact (c6_name_binding ⟨none, none, some "Position", 1⟩
      [⟨2, none, "Position", 2⟩] "Position" rfl rfl rfl).2
      ⟨2, none, "Position", 2⟩ (by decide) (by decide)

/-! ## C3 -/

/-- C3 counterexample: a batch with one update entity whose id carries an
update error stores the message under the shared meta key `error`, and the
action-specific key `update_error` the claim names is absent. -/
theorem c3_counterexample :
    post_objects_reconcile [] [(5, {})] [] [] { update := [(5, "boom")] } =
      .ok (⟨[], [(5, "boom")], []⟩,
        ⟨[], [(5, ⟨none, none, [("error", "boom")]⟩)], [], []⟩) ∧
    metaGet [("error", "boom")] "update_error" = none ∧
    metaGet [("error", "boom")] "error" = some "boom" := by
  refine ⟨by decide, by decide, by decide⟩

/-! ## C8 -/

/-- C8 counterexample: the local `updated_at` (5s, 1µs) differs from the
server-echoed (5s, 0µs), yet no warning is logged — the code compares the
microsecond-truncated local value, which here equals the server value. The
server value is still written. -/
theorem c8_counterexample :
    (⟨5, 1⟩ : Timestamp) ≠ (⟨5, 0⟩ : Timestamp) ∧
    post_objects_reconcile [] [(5, ⟨none, some ⟨5, 1⟩, []⟩)] [] [⟨5, some ⟨5, 0⟩⟩] {} =
      .ok (⟨[], [], []⟩, ⟨[], [(5, ⟨none, some ⟨5, 0⟩, []⟩)], [], []⟩) := by
  refine ⟨by decide, by decide⟩

/-- C8 amended: for an update entity whose id the server echoes with
`updated_at = T1`, the entity's `updated_at` always becomes T1 and no
exception is raised; the warning is logged exactly when the
microsecond-truncated local value differs from T1 (so a purely
sub-second difference logs nothing). -/
theorem c8_server_authoritative (idn : Int) (E : Entity) (t0 t1 : Timestamp)
    (hE : E.updated_at = some t0) :
    post_objects_reconcile [] [(idn, E)] [] [⟨idn, some t1⟩] {} =
      .ok (⟨[], [], []⟩,
        ⟨[], [(idn, ⟨E.id, some t1, metaPop E.meta "error"⟩)], [],
          if t0.truncate = t1 then [] else ["updated_at mismatch"]⟩) := by
  have hfind : List.find? (fun p => p.1 == idn) [(idn, E)] = some (idn, E) := by
    simp [List.find?]
  have hattr : attributeItems [⟨idn, some t1⟩] [] (initPostState [] [(idn, E)] []) =
      .ok ⟨[], [(idn, ⟨E.id, some t1, E.meta⟩)], [],
        [] ++ (if !(t0.truncate == t1) then ["updated_at mismatch"] else [])⟩ := by
    simp only [attributeItems, initPostState, hfind, hE]
    simp [beq_self_eq_true]
  have hrun : post_objects_reconcile [] [(idn, E)] [] [⟨idn, some t1⟩] {} =
      match attributeItems [⟨idn, some t1⟩] [] (initPostState [] [(idn, E)] []) with
      | .error e => .error e
      | .ok s1 => .ok (⟨[], [], []⟩,
          { s1 with
            add := applyMetaAdd 0 s1.add [],
            update := applyMetaMap s1.update [],
            delete := applyMetaMap s1.delete [] }) := rfl
  rw [hrun, hattr]
  simp only [applyMetaAdd, applyMetaMap, lookupInt, applyMetaObj, List.map]
  by_cases hc : t0.truncate = t1 <;> simp [hc]

/-- Witness for C8 amended: concrete mismatch in whole seconds, warning
logged, server value written. -/
theorem c8_server_authoritative_witness :
    post_objects_reconcile [] [(7, ⟨none, some ⟨4, 0⟩, []⟩)] [] [⟨7, some ⟨5, 0⟩⟩] {} =
      .ok (⟨[], [], []⟩,
        ⟨[], [(7, ⟨none, some ⟨5, 0⟩, metaPop [] "error"⟩)], [],
          if Timestamp.truncate ⟨4, 0⟩ = ⟨5, 0⟩ then [] else ["updated_at mismatch"]⟩) :=
  c8_server_authoritative 7 ⟨none, some ⟨4, 0⟩, []⟩ ⟨4, 0⟩ ⟨5, 0⟩ rfl

/-! ## C10 -/

theorem Timestamp.ble_refl (t : Timestamp) : t.ble t = true := by
  simp [Timestamp.ble]

theorem getGroup_setGroup (l : List (String × (List Entity × List (Int × Entity))))
    (c : String) (v : List Entity × List (Int × Entity)) :
    getGroup (setGroup l c v) c = v := by
  induction l with
  | nil => simp [setGroup, getGroup]
  | cons p rest ih =>
    by_cases h : p.1 == c
    · simp [setGroup, getGroup, h]
    · simp [setGroup, getGroup, h, ih]

theorem getGroup_setGroup_ne (l : List (String × (List Entity × List (Int × Entity))))
    (c c2 : String) (v : List Entity × List (Int × Entity)) (hne : c ≠ c2) :
    getGroup (setGroup l c v) c2 = getGroup l c2 := by
  induction l with
  | nil =>
    simp only [setGroup, getGroup]
    rw [if_neg (by simpa using hne)]
  | cons p rest ih =>
    by_cases h : p.1 == c
    · have hpc2 : (p.1 == c2) = false := by
        have : p.1 = c := by simpa using h
        simp [this, hne]
      simp [setGroup, getGroup, h, hpc2, beq_eq_false_iff_ne, hne]
    · simp [setGroup, getGroup, h, ih]

/-- C10: for an update entity (id present) processed by the grouping phase
of `post_objects` with the updated_at option enabled, the stored entity is
the refresh of the original: the entity's `updated_at` is set to the
microsecond-truncated timestamp exactly when it was previously unset or not
newer; a strictly newer local value is left unchanged and a warning is
logged; in all cases the refresh never decreases `updated_at`. -/
theorem c10_updated_at_refresh (now : Timestamp) (gs : GroupState) (cls : String)
    (obj : Entity) (n : Int) (hid : obj.id = some n)
    (hnd : (getGroup gs.groups cls).2.any (fun p => p.1 == n) = false) :
    ∃ gs2 : GroupState, groupStep (some now.truncate) gs cls obj = .ok gs2 ∧
      (getGroup gs2.groups cls).2 =
        (getGroup gs.groups cls).2 ++ [(n, (refreshUpdatedAt now.truncate obj).1)] ∧
      (obj.updated_at = none →
        (refreshUpdatedAt now.truncate obj).1.updated_at = some now.truncate ∧
        (refreshUpdatedAt now.truncate obj).2 = false) ∧
      (∀ t0, obj.updated_at = some t0 →
        (t0.ble now.truncate = true →
          (refreshUpdatedAt now.truncate obj).1.updated_at = some now.truncate ∧
          (refreshUpdatedAt now.truncate obj).2 = false) ∧
        (t0.ble now.truncate = false →
          (refreshUpdatedAt now.truncate obj).1 = obj ∧
          (refreshUpdatedAt now.truncate obj).2 = true ∧
          gs2.warnings = gs.warnings ++ ["Skipping updated_at set"]) ∧
        (∃ t1, (refreshUpdatedAt now.truncate obj).1.updated_at = some t1 ∧
          t0.ble t1 = true)) := by
  refine ⟨⟨setGroup gs.groups cls ((getGroup gs.groups cls).1,
      (getGroup gs.groups cls).2 ++ [(n, (refreshUpdatedAt now.truncate obj).1)]),
    gs.warnings ++ (if (refreshUpdatedAt now.truncate obj).2 then
      ["Skipping updated_at set"] else [])⟩, ?_, ?_, ?_, ?_⟩
  · simp only [groupStep, hid, hnd]
    rfl
  · rw [getGroup_setGroup]
  · intro h0
    simp [refreshUpdatedAt, h0]
  · intro t0 ht0
    refine ⟨fun hble => ?_, fun hble => ?_, ?_⟩
    · simp [refreshUpdatedAt, ht0, hble]
    · refine ⟨?_, ?_, ?_⟩
      · simp [refreshUpdatedAt, ht0, hble]
      · simp [refreshUpdatedAt, ht0, hble]
      · simp [refreshUpdatedAt, ht0, hble]
    · by_cases hble : t0.ble now.truncate
      · exact ⟨now.truncate, by simp [refreshUpdatedAt, ht0, hble], hble⟩
      · exact ⟨t0, by simp [refreshUpdatedAt, ht0, hble, ht0], Timestamp.ble_refl t0⟩

/-- Witness for C10: an entity with an older local `updated_at` gets the
truncated timestamp stored into the class's update map. -/
theorem c10_updated_at_refresh_witness :
    Except.map (fun gs2 : GroupState => (getGroup gs2.groups "contact").2)
      (groupStep (some (Timestamp.truncate ⟨10, 7⟩)) ⟨[], []⟩ "contact"
        ⟨some 1, some ⟨9, 5⟩, []⟩) = .ok [(1, ⟨some 1, some ⟨10, 0⟩, []⟩)] := by
  obtain ⟨gs2, hstep, hgrp, -, hsome⟩ :=
    c10_updated_at_refresh ⟨10, 7⟩ ⟨[], []⟩ "contact" ⟨some 1, some ⟨9, 5⟩, []⟩ 1 rfl (by decide)
  rw [hstep]
  simp only [Except.map]
  rw [hgrp]
  decide

/-! ## Attribution lemmas shared by C2, C3 and C4 -/

theorem modifyNth_length (l : List Entity) (i : Nat) (f : Entity → Entity) :
    (modifyNth l i f).length = l.length := by
  unfold modifyNth
  cases h : l[i]? with
  | none => rfl
  | some x => simp

theorem attributeItems_add_length (items : List RespItem) (idxs : List Nat)
    (s s2 : PostState) (h : attributeItems items idxs s = .ok s2) :
    s2.add.length = s.add.length := by
  induction items generalizing idxs s with
  | nil =>
    simp only [attributeItems] at h
    cases h
    rfl
  | cons item rest ih =>
    cases idxs with
    | cons i restIdxs =>
      simp only [attributeItems] at h
      split at h
      · exact absurd h (by simp)
      · have := ih restIdxs _ h
        rw [this]
        exact modifyNth_length s.add i _
    | nil =>
      simp only [attributeItems] at h
      split at h
      · exact ih [] s h
      · split at h
        · exact absurd h (by simp)
        · have h2 := ih [] _ h
          exact h2

theorem applyMetaAdd_length (i : Nat) (objs : List Entity) (errs : List (Nat × String)) :
    (applyMetaAdd i objs errs).length = objs.length := by
  induction objs generalizing i with
  | nil => rfl
  | cons o rest ih => simp [applyMetaAdd, ih]

theorem applyMetaAdd_getElem (objs : List Entity) (errs : List (Nat × String)) (i j : Nat) :
    (applyMetaAdd i objs errs)[j]? =
      (objs[j]?).map (fun o => applyMetaObj (lookupNat errs (i + j)) o) := by
  induction objs generalizing i j with
  | nil => simp [applyMetaAdd]
  | cons o rest ih =>
    cases j with
    | zero => simp [applyMetaAdd]
    | succ k =>
      simp only [applyMetaAdd, List.getElem?_cons_succ, ih (i + 1) k]
      have : i + 1 + k = i + (k + 1) := by omega
      rw [this]

/-- Truthiness of the error message, as the per-object loop applies it. -/
theorem metaGet_applyMetaAdd (objs : List Entity) (errs : List (Nat × String))
    (j : Nat) (h : j < (applyMetaAdd 0 objs errs).length) :
    metaGet ((applyMetaAdd 0 objs errs).get ⟨j, h⟩).meta "error" =
      (match lookupNat errs j with
       | some msg => if msg = "" then none else some msg
       | none => none) := by
  have hlt : j < objs.length := by rw [applyMetaAdd_length] at h; exact h
  have h1 := applyMetaAdd_getElem objs errs 0 j
  rw [List.getElem?_eq_getElem h, List.getElem?_eq_getElem hlt] at h1
  simp only [Option.map_some'] at h1
  have h2 : (applyMetaAdd 0 objs errs).get ⟨j, h⟩ =
      applyMetaObj (lookupNat errs (0 + j)) (objs.get ⟨j, hlt⟩) := by
    have := Option.some.inj h1
    simpa using this
  rw [h2]
  have h3 : (0 : Nat) + j = j := Nat.zero_add j
  rw [h3]
  exact metaGet_applyMetaObj _ _

/-! ## C3 (amended theorem) -/

/-- C3 amended: after a successfully validated batch, every entity in the
add, update and delete sets carries exactly the truthy error message for
its index/id under the single shared meta key `error` — not an
action-specific key — and entities without a current error have the stale
`error` key cleared, so a previously failed entity that now succeeds ends
up with no `error` key. -/
theorem c3_shared_error_key (add : List Entity) (updateMap deleteMap : List (Int × Entity))
    (items : List RespItem) (raw : RawErrors) (errsOut : NormErrors) (s : PostState)
    (hok : post_objects_reconcile add updateMap deleteMap items raw = .ok (errsOut, s)) :
    (∀ i (h : i < s.add.length),
      metaGet (s.add.get ⟨i, h⟩).meta "error" =
        (match lookupNat errsOut.add i with
         | some msg => if msg = "" then none else some msg
         | none => none)) ∧
    (∀ p ∈ s.update,
      metaGet p.2.meta "error" =
        (match lookupInt raw.update p.1 with
         | some msg => if msg = "" then none else some msg
         | none => none)) ∧
    (∀ p ∈ s.delete,
      metaGet p.2.meta "error" =
        (match lookupInt raw.delete p.1 with
         | some msg => if msg = "" then none else some msg
         | none => none)) := by
  simp only [post_objects_reconcile] at hok
  split at hok
  · exact absurd hok (by simp)
  · split at hok
    · exact absurd hok (by simp)
    · rename_i s1 hattr
      rw [Except.ok.injEq, Prod.mk.injEq] at hok
      obtain ⟨herrs, hs⟩ := hok
      subst hs
      refine ⟨fun i h => ?_, fun p hp => ?_, fun p hp => ?_⟩
      · rw [← herrs]
        exact metaGet_applyMetaAdd s1.add _ i h
      · simp only [applyMetaMap, List.mem_map] at hp
        obtain ⟨q, hq, hpq⟩ := hp
        subst hpq
        exact metaGet_applyMetaObj _ _
      · simp only [applyMetaMap, List.mem_map] at hp
        obtain ⟨q, hq, hpq⟩ := hp
        subst hpq
        exact metaGet_applyMetaObj _ _

/-- Witness for C3 amended: an update error lands under the shared `error`
key of the affected update entity. -/
theorem c3_shared_error_key_witness :
    metaGet [("error", "boom")] "error" =
      (match lookupInt [(5, "boom")] 5 with
       | some msg => if msg = "" then none else some msg
       | none => none) := by
  have h := (c3_shared_error_key [] [(5, ⟨none, none, [("error", "stale")]⟩)] [] []
    { update := [(5, "boom")] } ⟨[], [(5, "boom")], []⟩
    ⟨[], [(5, ⟨none, none, [("error", "boom")]⟩)], [], []⟩ (by decide)).2.1
  exact h (5, ⟨none, none, [("error", "boom")]⟩) (by decide)

/-! ## C2 -/

theorem lookupNat_append (l1 l2 : List (Nat × String)) (i : Nat) :
    lookupNat (l1 ++ l2) i =
      (match lookupNat l1 i with
       | some v => some v
       | none => lookupNat l2 i) := by
  induction l1 with
  | nil => simp [lookupNat]
  | cons p rest ih =>
    by_cases h : p.1 == i
    · simp [lookupNat, h]
    · simp [lookupNat, h, ih]

theorem lookupNat_range_map_ge (f : Nat → String) (n i : Nat) (h : n ≤ i) :
    lookupNat ((List.range n).map (fun j => (j, f j))) i = none := by
  induction n with
  | zero => rfl
  | succ n ih =>
    rw [List.range_succ, List.map_append, lookupNat_append]
    rw [ih (by omega)]
    have hne : (n == i) = false := by
      simp only [beq_eq_false_iff_ne]
      omega
    simp [lookupNat, hne]

theorem lookupNat_range_map_lt (f : Nat → String) (n i : Nat) (h : i < n) :
    lookupNat ((List.range n).map (fun j => (j, f j))) i = some (f i) := by
  induction n with
  | zero => omega
  | succ n ih =>
    rw [List.range_succ, List.map_append, lookupNat_append]
    by_cases hlt : i < n
    · rw [ih hlt]
    · have hin : i = n := by omega
      subst hin
      rw [lookupNat_range_map_ge f i i (Nat.le_refl i)]
      simp [lookupNat]

theorem maybeNotAddedMsg_ne_empty (msgs : List String) : maybeNotAddedMsg msgs ≠ "" := by
  unfold maybeNotAddedMsg
  intro h
  have h2 := congrArg String.length h
  rw [String.length_append, String.length_append] at h2
  have hA : ("Maybe not added (possible errors ").length = 33 := by decide
  have hE : ("" : String).length = 0 := rfl
  rw [hA, hE] at h2
  omega

/-- C2: when the add errors arrive as a list whose length differs from the
number of submitted add entities, and the batch passes the completeness
gate, the normalized error map holds one synthesized message per submitted
add entity (the message a function of the full raw list), and every add
entity — all of them — ends up with that message under its meta error key. -/
theorem c2_malformed_add_list (add : List Entity) (updateMap deleteMap : List (Int × Entity))
    (items : List RespItem) (msgs : List String) (raw : RawErrors)
    (hraw : raw.add = .list msgs) (hlen : msgs.length ≠ add.length)
    (errsOut : NormErrors) (s : PostState)
    (hok : post_objects_reconcile add updateMap deleteMap items raw = .ok (errsOut, s)) :
    errsOut.add = (List.range add.length).map (fun i => (i, maybeNotAddedMsg msgs)) ∧
    s.add.length = add.length ∧
    ∀ i (h : i < s.add.length),
      metaGet (s.add.get ⟨i, h⟩).meta "error" = some (maybeNotAddedMsg msgs) := by
  have hnorm : normalizeAddErrors raw.add add.length =
      (List.range add.length).map (fun i => (i, maybeNotAddedMsg msgs)) := by
    rw [hraw]
    simp [normalizeAddErrors, hlen]
  simp only [post_objects_reconcile] at hok
  split at hok
  · exact absurd hok (by simp)
  · split at hok
    · exact absurd hok (by simp)
    · rename_i s1 hattr
      rw [Except.ok.injEq, Prod.mk.injEq] at hok
      obtain ⟨herrs, hs⟩ := hok
      subst hs
      subst herrs
      have haddlen : s1.add.length = add.length := by
        have h1 := attributeItems_add_length _ _ _ _ hattr
        simpa [initPostState] using h1
      refine ⟨?_, ?_, ?_⟩
      · dsimp only
        rw [hnorm]
      · dsimp only
        rw [applyMetaAdd_length]
        exact haddlen
      · intro i h
        dsimp only at h ⊢
        rw [metaGet_applyMetaAdd s1.add _ i h]
        have hilt : i < add.length := by
          rw [applyMetaAdd_length] at h
          omega
        rw [hnorm, lookupNat_range_map_lt _ _ _ hilt]
        simp [maybeNotAddedMsg_ne_empty msgs]

/-- Witness for C2: one add entity, a two-element raw error list, empty
response — the single add entity carries the synthesized message. -/
theorem c2_malformed_add_list_witness :
    post_objects_reconcile [{}] [] [] [] { add := .list ["e", "f"] } =
      .ok (⟨[(0, maybeNotAddedMsg ["e", "f"])], [], []⟩,
        ⟨[⟨none, none, [("error", maybeNotAddedMsg ["e", "f"])]⟩], [], [], []⟩) ∧
    metaGet [("error", maybeNotAddedMsg ["e", "f"])] "error" =
      some (maybeNotAddedMsg ["e", "f"]) := by
  have hrun : post_objects_reconcile [{}] [] [] [] { add := .list ["e", "f"] } =
      .ok (⟨[(0, maybeNotAddedMsg ["e", "f"])], [], []⟩,
        ⟨[⟨none, none, [("error", maybeNotAddedMsg ["e", "f"])]⟩], [], [], []⟩) := by
    decide
  have h := (c2_malformed_add_list [{}] [] [] [] ["e", "f"] { add := .list ["e", "f"] }
    rfl (by decide) _ _ hrun).2.2 0 (by decide)
  exact ⟨hrun, by simpa using h⟩

/-! ## C4 -/

/-- Proof-side characterization of the id-assignment performed by the
attribution loop: consume indices and items pairwise, writing each item's
id into the indexed add entity (not part of the embedding; used only to
relate `attributeItems` to its closed form). -/
def assignIds : List Entity → List Nat → List RespItem → List Entity
  | l, [], _ => l
  | l, _, [] => l
  | l, i :: idxs, it :: its =>
    assignIds (modifyNth l i (fun e => { e with id := some it.id })) idxs its

theorem assignIds_nil_items (l : List Entity) (idxs : List Nat) :
    assignIds l idxs [] = l := by
  cases idxs <;> rfl

theorem assignIds_nil_idxs (l : List Entity) (items : List RespItem) :
    assignIds l [] items = l := by
  cases items <;> rfl

theorem attributeItems_all_none (items : List RespItem) (idxs : List Nat) (s : PostState)
    (hall : ∀ it ∈ items, it.updated_at = none) :
    attributeItems items idxs s = .ok { s with add := assignIds s.add idxs items } := by
  induction items generalizing idxs s with
  | nil =>
    rw [assignIds_nil_items]
    rfl
  | cons item rest ih =>
    have hhd : item.updated_at = none := hall item (by simp)
    have htl : ∀ it ∈ rest, it.updated_at = none := fun it hit => hall it (by simp [hit])
    cases idxs with
    | nil =>
      simp only [attributeItems, hhd]
      rw [ih [] s htl]
      rw [assignIds_nil_idxs, assignIds_nil_idxs]
    | cons i restIdxs =>
      simp only [attributeItems, hhd]
      rw [ih restIdxs _ htl]
      rfl

theorem modifyNth_cons_succ (x : Entity) (l : List Entity) (i : Nat) (f : Entity → Entity) :
    modifyNth (x :: l) (i + 1) f = x :: modifyNth l i f := by
  unfold modifyNth
  rw [List.getElem?_cons_succ]
  cases h : l[i]? with
  | none => rfl
  | some y => rfl

theorem assignIds_map_succ (items : List RespItem) (idxs : List Nat)
    (x : Entity) (l : List Entity) :
    assignIds (x :: l) (idxs.map Nat.succ) items = x :: assignIds l idxs items := by
  induction items generalizing idxs l x with
  | nil => rw [assignIds_nil_items, assignIds_nil_items]
  | cons it its ih =>
    cases idxs with
    | nil => rfl
    | cons i idxs2 =>
      simp only [List.map_cons, assignIds]
      have hsucc : Nat.succ i = i + 1 := rfl
      rw [hsucc, modifyNth_cons_succ]
      exact ih idxs2 _ _

theorem assignIds_range (add : List Entity) (items : List RespItem) :
    assignIds add (List.range add.length) items =
      ((add.zip items).map (fun p => { p.1 with id := some p.2.id })) ++
        add.drop items.length := by
  induction add generalizing items with
  | nil =>
    rw [List.length_nil, List.range_zero, assignIds_nil_idxs]
    simp
  | cons e rest ih =>
    rw [List.length_cons, List.range_succ_eq_map]
    cases items with
    | nil =>
      rw [assignIds_nil_items]
      simp
    | cons it its =>
      simp only [assignIds]
      have h0 : modifyNth (e :: rest) 0 (fun o => { o with id := some it.id }) =
          { e with id := some it.id } :: rest := by
        simp [modifyNth]
      rw [h0, assignIds_map_succ, ih its]
      simp [List.zip]

/-- C4: for a batch with no add errors whose items all lack `updated_at`
and which passes the completeness gate, the returned ids are assigned to
the add entities in submission order (the i-th item's id to the i-th add
entity), every attributed entity keeps its other fields, trailing
unattributed add entities are untouched, and every add entity ends with no
meta error. -/
theorem c4_add_attribution (add : List Entity) (updateMap deleteMap : List (Int × Entity))
    (items : List RespItem) (raw : RawErrors)
    (herr : normalizeAddErrors raw.add add.length = [])
    (hitems : ∀ it ∈ items, it.updated_at = none)
    (hcount : items.length + (raw.update.length + raw.delete.length)
      = add.length + updateMap.length + deleteMap.length) :
    ∃ s : PostState,
      post_objects_reconcile add updateMap deleteMap items raw =
        .ok (⟨[], raw.update, raw.delete⟩, s) ∧
      s.add = ((add.zip items).map (fun p =>
          { p.1 with id := some p.2.id, meta := metaPop p.1.meta "error" })) ++
        ((add.drop items.length).map (fun e => { e with meta := metaPop e.meta "error" })) := by
  have hfilter : (List.range add.length).filter
      (fun i => (lookupNat (normalizeAddErrors raw.add add.length) i).isNone) =
      List.range add.length := by
    rw [herr]
    exact List.filter_eq_self.mpr (fun a _ => rfl)
  have hgate : ¬(items.length + ((normalizeAddErrors raw.add add.length).length +
      raw.update.length + raw.delete.length)
      ≠ add.length + updateMap.length + deleteMap.length) := by
    rw [herr]
    simp only [List.length_nil, not_not]
    omega
  have happlynil : ∀ (i : Nat) (objs : List Entity), applyMetaAdd i objs [] =
      objs.map (fun o => { o with meta := metaPop o.meta "error" }) := by
    intro i objs
    induction objs generalizing i with
    | nil => rfl
    | cons o rest ih => simp [applyMetaAdd, lookupNat, applyMetaObj, ih]
  have hattr := attributeItems_all_none items (List.range add.length)
    (initPostState add updateMap deleteMap) hitems
  refine ⟨⟨applyMetaAdd 0 (assignIds add (List.range add.length) items) [],
    applyMetaMap updateMap raw.update, applyMetaMap deleteMap raw.delete, []⟩, ?_, ?_⟩
  · simp only [post_objects_reconcile, if_neg hgate, hfilter]
    rw [hattr]
    simp only [herr]
    rfl
  · simp only
    rw [happlynil, assignIds_range, List.map_append, List.map_map]
    rfl

/-- Witness for C4: the spec's concrete scenario — `add=[A,B]`, items
`[{id:10},{id:11}]`, no errors: A gets id 10, B gets id 11, no meta error. -/
theorem c4_add_attribution_witness :
    Except.map (fun r : NormErrors × PostState => (r.1, r.2.add))
      (post_objects_reconcile [{}, {}] [] [] [⟨10, none⟩, ⟨11, none⟩] {}) =
      .ok (⟨[], [], []⟩, [⟨some 10, none, []⟩, ⟨some 11, none, []⟩]) := by
  obtain ⟨s, hrun, hadd⟩ := c4_add_attribution [{}, {}] [] [] [⟨10, none⟩, ⟨11, none⟩] {}
    (by decide) (by decide) (by decide)
  rw [hrun]
  simp only [Except.map]
  rw [hadd]
  decide

/-! ## C9 -/

theorem groupStep_error_shape (ua : Option Timestamp) (gs : GroupState) (c : String)
    (o : Entity) (e : PostExn × GroupState) (h : groupStep ua gs c o = .error e) :
    e.1 = .assertionError "Duplicated id" := by
  cases ho : o.id with
  | none =>
    simp only [groupStep, ho] at h
    exact absurd h (by simp)
  | some n =>
    simp only [groupStep, ho] at h
    by_cases hg : ((getGroup gs.groups c).2.any fun p => p.1 == n) = true
    · rw [if_pos hg] at h
      injection h with h2
      rw [← h2]
    · rw [if_neg hg] at h
      exact absurd h (by simp)

theorem groupFold_error_shape (ua : Option Timestamp) (objs : List (String × Entity))
    (gs : GroupState) (e : PostExn × GroupState) (h : groupFold ua objs gs = .error e) :
    e.1 = .assertionError "Duplicated id" := by
  induction objs generalizing gs with
  | nil => exact absurd h (by simp [groupFold])
  | cons p rest ih =>
    obtain ⟨c, o⟩ := p
    simp only [groupFold] at h
    cases hs : groupStep ua gs c o with
    | error e2 =>
      rw [hs] at h
      injection h with h2
      rw [h2] at hs
      exact groupStep_error_shape ua gs c o e hs
    | ok gsMid =>
      rw [hs] at h
      exact ih gsMid h

theorem groupFold_append (ua : Option Timestamp) (xs ys : List (String × Entity))
    (gs : GroupState) :
    groupFold ua (xs ++ ys) gs =
      (match groupFold ua xs gs with
       | .error e => .error e
       | .ok gs2 => groupFold ua ys gs2) := by
  induction xs generalizing gs with
  | nil => simp [groupFold]
  | cons p rest ih =>
    obtain ⟨c, o⟩ := p
    simp only [List.cons_append, groupFold]
    cases groupStep ua gs c o with
    | error e => rfl
    | ok gs2 => exact ih gs2

theorem groupStep_ok_key (ua : Option Timestamp) (gs gs2 : GroupState) (c : String)
    (o : Entity) (n : Int) (hid : o.id = some n) (h : groupStep ua gs c o = .ok gs2) :
    (getGroup gs2.groups c).2.any (fun p => p.1 == n) = true := by
  simp only [groupStep, hid] at h
  by_cases hg : ((getGroup gs.groups c).2.any fun p => p.1 == n) = true
  · rw [if_pos hg] at h
    exact absurd h (by simp)
  · rw [if_neg hg] at h
    injection h with h2
    rw [← h2]
    simp only [getGroup_setGroup]
    simp

theorem groupStep_keys_mono (ua : Option Timestamp) (gs gs2 : GroupState) (c2 : String)
    (o : Entity) (h : groupStep ua gs c2 o = .ok gs2) (c : String) (n : Int)
    (hk : (getGroup gs.groups c).2.any (fun p => p.1 == n) = true) :
    (getGroup gs2.groups c).2.any (fun p => p.1 == n) = true := by
  cases ho : o.id with
  | none =>
    simp only [groupStep, ho] at h
    injection h with h2
    rw [← h2]
    by_cases hc : c2 = c
    · subst hc
      rw [getGroup_setGroup]
      exact hk
    · rw [getGroup_setGroup_ne _ _ _ _ hc]
      exact hk
  | some m =>
    simp only [groupStep, ho] at h
    by_cases hg : ((getGroup gs.groups c2).2.any fun p => p.1 == m) = true
    · rw [if_pos hg] at h
      exact absurd h (by simp)
    · rw [if_neg hg] at h
      injection h with h2
      rw [← h2]
      by_cases hc : c2 = c
      · subst hc
        rw [getGroup_setGroup]
        simp only [List.any_append, Bool.or_eq_true]
        exact Or.inl hk
      · rw [getGroup_setGroup_ne _ _ _ _ hc]
        exact hk

theorem groupFold_keys_mono (ua : Option Timestamp) (objs : List (String × Entity))
    (gs gs2 : GroupState) (h : groupFold ua objs gs = .ok gs2) (c : String) (n : Int)
    (hk : (getGroup gs.groups c).2.any (fun p => p.1 == n) = true) :
    (getGroup gs2.groups c).2.any (fun p => p.1 == n) = true := by
  induction objs generalizing gs with
  | nil =>
    simp only [groupFold] at h
    cases h
    exact hk
  | cons p rest ih =>
    obtain ⟨c2, o⟩ := p
    simp only [groupFold] at h
    cases hs : groupStep ua gs c2 o with
    | error e2 =>
      rw [hs] at h
      exact absurd h (by simp)
    | ok gsMid =>
      rw [hs] at h
      exact ih gsMid h (groupStep_keys_mono ua gs gsMid c2 o hs c n hk)

theorem groupStep_duplicate (ua : Option Timestamp) (gs : GroupState) (c : String)
    (o : Entity) (n : Int) (hid : o.id = some n)
    (hk : (getGroup gs.groups c).2.any (fun p => p.1 == n) = true) :
    ∃ gs2, groupStep ua gs c o = .error (.assertionError "Duplicated id", gs2) := by
  refine ⟨{ gs with warnings := gs.warnings ++
      (if (match ua with
           | some t => refreshUpdatedAt t o
           | none => (o, false)).2 then ["Skipping updated_at set"] else []) }, ?_⟩
  simp only [groupStep, hid]
  rw [if_pos hk]

/-- C9: when the add_or_update sequence holds two entities of the same
class carrying the same non-None id, `post_objects` fails with the
"Duplicated id" AssertionError during the grouping phase, for every
possible transport response — i.e. before any request is sent — instead of
silently keeping only one of them in the update map. -/
theorem c9_duplicate_id (uaOpt : Option Timestamp) (l1 l2 l3 : List (String × Entity))
    (cls : String) (o1 o2 : Entity) (n : Int)
    (h1 : o1.id = some n) (h2 : o2.id = some n) :
    ∀ f : String → List RespItem × RawErrors,
      post_objects f uaOpt (l1 ++ (cls, o1) :: (l2 ++ (cls, o2) :: l3)) =
        .error (.assertionError "Duplicated id") := by
  have hgrp : ∃ e, group_add_or_update uaOpt (l1 ++ (cls, o1) :: (l2 ++ (cls, o2) :: l3)) =
      .error e ∧ e.1 = .assertionError "Duplicated id" := by
    unfold group_add_or_update
    set ua := uaOpt.map Timestamp.truncate with hua
    rw [groupFold_append]
    cases hf1 : groupFold ua l1 ⟨[], []⟩ with
    | error e => exact ⟨e, rfl, groupFold_error_shape ua l1 _ e hf1⟩
    | ok gs1 =>
      simp only [groupFold]
      cases hs1 : groupStep ua gs1 cls o1 with
      | error e => exact ⟨e, rfl, groupStep_error_shape ua gs1 cls o1 e hs1⟩
      | ok gs2 =>
        have hkey2 := groupStep_ok_key ua gs1 gs2 cls o1 n h1 hs1
        dsimp only
        rw [groupFold_append]
        cases hf2 : groupFold ua l2 gs2 with
        | error e => exact ⟨e, rfl, groupFold_error_shape ua l2 _ e hf2⟩
        | ok gs3 =>
          have hkey3 := groupFold_keys_mono ua l2 gs2 gs3 hf2 cls n hkey2
          obtain ⟨gs4, hdup⟩ := groupStep_duplicate ua gs3 cls o2 n h2 hkey3
          dsimp only
          simp only [groupFold]
          rw [hdup]
          exact ⟨(.assertionError "Duplicated id", gs4), rfl, rfl⟩
  obtain ⟨e, he, hshape⟩ := hgrp
  intro f
  simp only [post_objects, he, hshape]

/-- Witness for C9: two same-class entities with id 5 make the call fail
regardless of the transport's response. -/
theorem c9_duplicate_id_witness :
    post_objects (fun _ => ([], {})) none
      ([] ++ ("contact", ⟨some 5, none, []⟩) :: [] ++ ("contact", ⟨some 5, none, []⟩) :: []) =
      .error (.assertionError "Duplicated id") :=
  c9_duplicate_id none [] [] [] "contact" ⟨some 5, none, []⟩ ⟨some 5, none, []⟩ 5 rfl rfl
    (fun _ => ([], {}))

end AmocrmApi
